import Mathlib

/-!
# Verification of the kafka-sniffer decode-and-correlate pipeline

A shallow embedding of the core of `d-ulyanov/kafka-sniffer`:

* the wire codec (`RealDecoder` of `kafka/real_decoder.go`): a positioned
  reader over an immutable byte slice with cursor `off`;
* the request framer (`Request.Decode` / `DecodeRequest` of
  `kafka/request.go`);
* the records tagged-union dispatch (`kafka/records.go`);
* the expiring relation registry (`metrics/storage.go`).

Go bytes are modelled as `Nat` normalised modulo 256 at every read; Go strings
are byte slices and are modelled as `List Nat`.  Go `int16`/`int32` values are
modelled as `Int` obtained by two's-complement reinterpretation of the
big-endian unsigned value (`toSigned`).  Stateful decoder methods become
explicit state passing: each operation returns its result (as `Except`)
together with the decoder state after the call, including the states Go leaves
behind on error paths (e.g. the cursor moved to the end of the buffer on
`ErrInsufficientData`).

Goroutines, channels and real timers of the registry are modelled by their
synchronous effect on the registry state: a relation's one-shot `time.Timer`
is represented by the `Option Int` duration it was last armed with, and the
`go rel.run()` spawned at relation creation performs `refresh` as its first
action, which is where the timer is actually created in the source.
-/

namespace KafkaSniffer

/-- Errors surfaced by the decoder.  `packetDecoding info` models
`PacketDecodingError{Info: info}`; `insufficientData` models the distinguished
`ErrInsufficientData`; `eof` and `unexpectedEOF` model `io.EOF` and
`io.ErrUnexpectedEOF` returned by `io.ReadFull`. -/
inductive KError where
  | eof
  | unexpectedEOF
  | insufficientData
  | packetDecoding (info : String)
  deriving DecidableEq, Repr

/-- `errInvalidArrayLength` of `real_decoder.go`. -/
def errInvalidArrayLength : KError := .packetDecoding "invalid array length"

/-- `errInvalidByteSliceLength` of `real_decoder.go`. -/
def errInvalidByteSliceLength : KError := .packetDecoding "invalid byteslice length"

/-- `errInvalidStringLength` of `real_decoder.go`. -/
def errInvalidStringLength : KError := .packetDecoding "invalid string length"

/-- Big-endian unsigned value of a byte list, each byte normalised mod 256
(the model's counterpart of `binary.BigEndian.UintNN`). -/
def beList (l : List Nat) : Nat :=
  l.foldl (fun a b => a * 256 + b % 256) 0

/-- Two's-complement reinterpretation of a `w`-bit unsigned value, i.e.
`int16(...)` / `int32(...)` conversions in Go. -/
def toSigned (w : Nat) (n : Nat) : Int :=
  if n < 2 ^ (w - 1) then (n : Int) else (n : Int) - 2 ^ w

/-- `RealDecoder` of `kafka/real_decoder.go`: immutable byte slice `raw` plus
cursor `off`.  (The `stack` of push-decoders is never used on the paths
modelled here and is omitted.) -/
structure RealDecoder where
  raw : List Nat
  off : Nat
  deriving DecidableEq, Repr

namespace RealDecoder

/-- `remaining()`: `len(rd.raw) - rd.off` as a Go `int`. -/
def remaining (rd : RealDecoder) : Int :=
  (rd.raw.length : Int) - (rd.off : Int)

/-- The big-endian unsigned value of the first `k` bytes of `rd.raw[rd.off:]`
(what `binary.BigEndian.UintNN(rd.raw[rd.off:])` reads). -/
def beBytes (rd : RealDecoder) (k : Nat) : Nat :=
  beList (((rd.raw.drop rd.off)).take k)

/-- `getInt8`. -/
def getInt8 (rd : RealDecoder) : Except KError Int × RealDecoder :=
  if rd.remaining < 1 then
    (.error .insufficientData, { rd with off := rd.raw.length })
  else
    (.ok (toSigned 8 (rd.beBytes 1)), { rd with off := rd.off + 1 })

/-- `getInt16`. -/
def getInt16 (rd : RealDecoder) : Except KError Int × RealDecoder :=
  if rd.remaining < 2 then
    (.error .insufficientData, { rd with off := rd.raw.length })
  else
    (.ok (toSigned 16 (rd.beBytes 2)), { rd with off := rd.off + 2 })

/-- `getInt32`. -/
def getInt32 (rd : RealDecoder) : Except KError Int × RealDecoder :=
  if rd.remaining < 4 then
    (.error .insufficientData, { rd with off := rd.raw.length })
  else
    (.ok (toSigned 32 (rd.beBytes 4)), { rd with off := rd.off + 4 })

/-- `getArrayLength`: reads an int32 count, then checks it against the bytes
remaining *after* the read and against `2 * math.MaxUint16`. -/
def getArrayLength (rd : RealDecoder) : Except KError Int × RealDecoder :=
  if rd.remaining < 4 then
    (.error .insufficientData, { rd with off := rd.raw.length })
  else
    let tmp : Int := toSigned 32 (rd.beBytes 4)
    let rd' : RealDecoder := { rd with off := rd.off + 4 }
    if tmp > rd'.remaining then
      (.error .insufficientData, { rd' with off := rd'.raw.length })
    else if tmp > 2 * 65535 then
      (.error errInvalidArrayLength, rd')
    else
      (.ok tmp, rd')

/-- `getStringLength`: reads the int16 length prefix of a string and
validates it (`< -1` is invalid, larger than the remaining byte count is
`ErrInsufficientData` with the cursor moved to the end). -/
def getStringLength (rd : RealDecoder) : Except KError Int × RealDecoder :=
  match rd.getInt16 with
  | (.error e, rd') => (.error e, rd')
  | (.ok length, rd') =>
    if length < -1 then
      (.error errInvalidStringLength, rd')
    else if length > rd'.remaining then
      (.error .insufficientData, { rd' with off := rd'.raw.length })
    else
      (.ok length, rd')

/-- `getString`: length prefix then that many raw bytes (a Go string is just
the bytes; no UTF-8 validation happens). -/
def getString (rd : RealDecoder) : Except KError (List Nat) × RealDecoder :=
  match rd.getStringLength with
  | (.error e, rd') => (.error e, rd')
  | (.ok n, rd') =>
    if n = -1 then
      (.ok [], rd')
    else
      (.ok ((rd'.raw.drop rd'.off).take n.toNat), { rd' with off := rd'.off + n.toNat })

/-- `getRawBytes`. -/
def getRawBytes (rd : RealDecoder) (length : Int) : Except KError (List Nat) × RealDecoder :=
  if length < 0 then
    (.error errInvalidByteSliceLength, rd)
  else if length > rd.remaining then
    (.error .insufficientData, { rd with off := rd.raw.length })
  else
    (.ok ((rd.raw.drop rd.off).take length.toNat), { rd with off := rd.off + length.toNat })

/-- `getSubset`: `getRawBytes` then a fresh sub-decoder over the bytes read. -/
def getSubset (rd : RealDecoder) (length : Int) : Except KError RealDecoder × RealDecoder :=
  match rd.getRawBytes length with
  | (.error e, rd') => (.error e, rd')
  | (.ok buf, rd') => (.ok { raw := buf, off := 0 }, rd')

/-- `peek`: like `getSubset` but it does not advance the cursor. -/
def peek (rd : RealDecoder) (offset length : Int) :
    Except KError RealDecoder × RealDecoder :=
  if rd.remaining < offset + length then
    (.error .insufficientData, rd)
  else
    (.ok { raw := ((rd.raw.drop (rd.off + offset.toNat)).take length.toNat), off := 0 }, rd)

/-- `peekInt8`: a single byte at `rd.off + offset`, without advancing. -/
def peekInt8 (rd : RealDecoder) (offset : Int) : Except KError Int × RealDecoder :=
  if rd.remaining < offset + 1 then
    (.error .insufficientData, rd)
  else
    (.ok (toSigned 8 (rd.raw.getD (rd.off + offset.toNat) 0 % 256)), rd)

/-- `discard`: advances the cursor by `length` with no bounds check.  The Go
cursor is an `int`; in every call in the source the delta is non-negative
(and `Int.toNat` is then exact), since `discard` only runs after a prelude
that consumed at most `BodyLength` bytes of a `BodyLength`-byte buffer. -/
def discard (rd : RealDecoder) (length : Int) : RealDecoder :=
  { rd with off := ((rd.off : Int) + length).toNat }

end RealDecoder

section DecoderTheorems

open RealDecoder

theorem getInt16_ok (rd : RealDecoder) (h : 2 ≤ rd.remaining) :
    rd.getInt16 = (.ok (toSigned 16 (rd.beBytes 2)), { rd with off := rd.off + 2 }) := by
  unfold getInt16
  rw [if_neg (not_lt.mpr h)]

theorem getInt32_ok (rd : RealDecoder) (h : 4 ≤ rd.remaining) :
    rd.getInt32 = (.ok (toSigned 32 (rd.beBytes 4)), { rd with off := rd.off + 4 }) := by
  unfold getInt32
  rw [if_neg (not_lt.mpr h)]

theorem getString_eq_null (rd : RealDecoder) (h2 : 2 ≤ rd.remaining)
    (hm : toSigned 16 (rd.beBytes 2) = -1) :
    rd.getString = (.ok [], { rd with off := rd.off + 2 }) := by
  have hrem : ({ rd with off := rd.off + 2 } : RealDecoder).remaining = rd.remaining - 2 := by
    simp [remaining]; omega
  unfold getString getStringLength
  rw [getInt16_ok rd h2]
  simp only [hrem, hm]
  rw [if_neg (by omega), if_neg (by omega)]
  simp

theorem getString_eq_take (rd : RealDecoder) (h2 : 2 ≤ rd.remaining)
    (hge : 0 ≤ toSigned 16 (rd.beBytes 2))
    (hle : toSigned 16 (rd.beBytes 2) ≤ rd.remaining - 2) :
    rd.getString = (.ok ((rd.raw.drop (rd.off + 2)).take (toSigned 16 (rd.beBytes 2)).toNat),
                    { rd with off := rd.off + 2 + (toSigned 16 (rd.beBytes 2)).toNat }) := by
  have hrem : ({ rd with off := rd.off + 2 } : RealDecoder).remaining = rd.remaining - 2 := by
    simp [remaining]; omega
  unfold getString getStringLength
  rw [getInt16_ok rd h2]
  simp only [hrem]
  rw [if_neg (by omega), if_neg (by omega)]
  have hm : ¬ toSigned 16 (rd.beBytes 2) = -1 := by omega
  simp [hm]

/-- **C7.** For every decoder state (with the int16 length prefix readable),
`getString` behaves as: prefix `-1` returns the empty string with no error;
prefix `< -1` fails with the invalid-string-length error; prefix greater than
the remaining byte count fails with `InsufficientData`, moving the cursor to
the end of the buffer; otherwise it returns exactly `prefix` bytes (opaque,
no UTF-8 validation) and advances the cursor by `2 + prefix`. -/
theorem getString_spec (rd : RealDecoder) (h2 : 2 ≤ rd.remaining) :
    (toSigned 16 (rd.beBytes 2) = -1 →
       rd.getString = (.ok [], { rd with off := rd.off + 2 })) ∧
    (toSigned 16 (rd.beBytes 2) < -1 →
       rd.getString = (.error errInvalidStringLength, { rd with off := rd.off + 2 })) ∧
    (rd.remaining - 2 < toSigned 16 (rd.beBytes 2) →
       rd.getString = (.error .insufficientData, { rd with off := rd.raw.length })) ∧
    (0 ≤ toSigned 16 (rd.beBytes 2) → toSigned 16 (rd.beBytes 2) ≤ rd.remaining - 2 →
       rd.getString = (.ok ((rd.raw.drop (rd.off + 2)).take (toSigned 16 (rd.beBytes 2)).toNat),
                       { rd with off := rd.off + 2 + (toSigned 16 (rd.beBytes 2)).toNat })) := by
  have hrem : ({ rd with off := rd.off + 2 } : RealDecoder).remaining = rd.remaining - 2 := by
    simp [remaining]; omega
  refine ⟨fun hm1 => ?_, fun hlt => ?_, fun hbig => ?_, fun hge hle => ?_⟩
  · unfold getString getStringLength
    rw [getInt16_ok rd h2]
    simp only [hrem, hm1]
    rw [if_neg (by omega), if_neg (by omega)]
    simp
  · unfold getString getStringLength
    rw [getInt16_ok rd h2]
    simp only [hrem]
    rw [if_pos hlt]
  · unfold getString getStringLength
    rw [getInt16_ok rd h2]
    simp only [hrem]
    rw [if_neg (by omega), if_pos (by omega)]
  · unfold getString getStringLength
    rw [getInt16_ok rd h2]
    simp only [hrem]
    rw [if_neg (by omega), if_neg (by omega)]
    have hm : ¬ toSigned 16 (rd.beBytes 2) = -1 := by omega
    simp [hm]



/-- Witness for `getString_spec` at a concrete input: a 3-byte buffer with
string length prefix 1 followed by the byte 65. -/
theorem getString_spec_witness :
    RealDecoder.getString ⟨[0, 1, 65], 0⟩ = (.ok [65], ⟨[0, 1, 65], 3⟩) := by
  have h := (getString_spec ⟨[0, 1, 65], 0⟩ (by decide)).2.2.2 (by decide) (by decide)
  rw [h]; rfl

/-- **C10.** For every decoder state with at least 4 bytes remaining whose
next big-endian int32 is negative, `getArrayLength` returns that negative
value with no error; the invalid-array-length error only fires for counts
above `2 * 65535`, and `InsufficientData` (past the initial 4-byte read) only
for positive counts exceeding the remaining byte count. -/
theorem getArrayLength_neg_spec (rd : RealDecoder) (h4 : 4 ≤ rd.remaining) :
    (toSigned 32 (rd.beBytes 4) < 0 →
       rd.getArrayLength = (.ok (toSigned 32 (rd.beBytes 4)), { rd with off := rd.off + 4 })) ∧
    (rd.getArrayLength.1 = .error errInvalidArrayLength →
       2 * 65535 < toSigned 32 (rd.beBytes 4)) ∧
    (rd.getArrayLength.1 = .error .insufficientData →
       0 < toSigned 32 (rd.beBytes 4) ∧ rd.remaining - 4 < toSigned 32 (rd.beBytes 4)) := by
  have hrem : ({ rd with off := rd.off + 4 } : RealDecoder).remaining = rd.remaining - 4 := by
    simp [remaining]; omega
  refine ⟨fun hneg => ?_, fun herr => ?_, fun hins => ?_⟩
  · unfold getArrayLength
    rw [if_neg (not_lt.mpr h4)]
    simp only [hrem]
    rw [if_neg (by omega), if_neg (by omega)]
  · unfold getArrayLength at herr
    rw [if_neg (not_lt.mpr h4)] at herr
    simp only [hrem] at herr
    by_cases hc1 : toSigned 32 (rd.beBytes 4) > rd.remaining - 4
    · rw [if_pos hc1] at herr
      simp [errInvalidArrayLength] at herr
    · rw [if_neg hc1] at herr
      by_cases hc2 : toSigned 32 (rd.beBytes 4) > 2 * 65535
      · omega
      · rw [if_neg hc2] at herr
        simp at herr
  · unfold getArrayLength at hins
    rw [if_neg (not_lt.mpr h4)] at hins
    simp only [hrem] at hins
    by_cases hc1 : toSigned 32 (rd.beBytes 4) > rd.remaining - 4
    · omega
    · rw [if_neg hc1] at hins
      by_cases hc2 : toSigned 32 (rd.beBytes 4) > 2 * 65535
      · rw [if_pos hc2] at hins
        simp [errInvalidArrayLength] at hins
      · rw [if_neg hc2] at hins
        simp at hins


/-- Witness for `getArrayLength_neg_spec`: the bytes `ff ff ff ff` decode to
the null-array count `-1`, which is passed through with no error. -/
theorem getArrayLength_neg_spec_witness :
    RealDecoder.getArrayLength ⟨[255, 255, 255, 255], 0⟩
      = (.ok (-1), ⟨[255, 255, 255, 255], 4⟩) := by
  have h := (getArrayLength_neg_spec ⟨[255, 255, 255, 255], 0⟩ (by decide)).1 (by decide)
  rw [h]; rfl

/-- **C9.** `peek(offset, length)` and `peekInt8(offset)` never change the
decoder's cursor (whether they succeed or fail), while `getSubset(n)`
advances the parent cursor by exactly `n` on success. -/
theorem peek_spec (rd : RealDecoder) (offset length n : Int) :
    (rd.peek offset length).2 = rd ∧
    (rd.peekInt8 offset).2 = rd ∧
    (∀ sub rd', rd.getSubset n = (.ok sub, rd') → rd'.off = rd.off + n.toNat) := by
  refine ⟨?_, ?_, fun sub rd' h => ?_⟩
  · unfold peek
    split <;> rfl
  · unfold peekInt8
    split <;> rfl
  · unfold getSubset getRawBytes at h
    by_cases hc1 : n < 0
    · rw [if_pos hc1] at h
      simp at h
    · rw [if_neg hc1] at h
      by_cases hc2 : n > rd.remaining
      · rw [if_pos hc2] at h
        simp at h
      · rw [if_neg hc2] at h
        simp at h
        rw [← h.2]


/-- Witness for `peek_spec`: on the buffer `[1, 2, 3]`, `peek` and `peekInt8`
leave the state untouched and a successful `getSubset 2` leaves the parent
cursor at 2. -/
theorem peek_spec_witness :
    ((⟨[1, 2, 3], 0⟩ : RealDecoder).getSubset 2).2.off = 0 + (2 : Int).toNat := by
  exact (peek_spec ⟨[1, 2, 3], 0⟩ 0 1 2).2.2 ⟨[1, 2], 0⟩ ⟨[1, 2, 3], 2⟩ (by rfl)

end DecoderTheorems

section Records

/-- Record-container type constants of `kafka/records.go` (`iota`). -/
def unknownRecords : Nat := 0

/-- Legacy MessageSet container. -/
def legacyRecords : Nat := 1

/-- Default RecordBatch container. -/
def defaultRecords : Nat := 2

/-- `magicOffset = 16` of `kafka/records.go`. -/
def magicOffset : Int := 16

/-- `Records` of `kafka/records.go`: a union of a legacy MessageSet and a
default RecordBatch.  The contents of the two containers are irrelevant to
the dispatch (and their decoders are not part of the sources modelled here),
so the two pointers are modelled as `Option Unit`: `some ()` stands for an
allocated container. -/
structure Records where
  recordsType : Nat := unknownRecords
  MsgSet : Option Unit := none
  RecordBatch : Option Unit := none
  deriving DecidableEq, Repr

/-- `magicValue`: peek the magic byte at offset 16 without advancing. -/
def magicValue (rd : RealDecoder) : Except KError Int × RealDecoder :=
  rd.peekInt8 magicOffset

/-- `Records.setTypeFromMagic`: legacy iff the magic byte is `< 2`. -/
def Records.setTypeFromMagic (r : Records) (rd : RealDecoder) :
    Except KError Records × RealDecoder :=
  match magicValue rd with
  | (.error e, rd') => (.error e, rd')
  | (.ok magic, rd') =>
    (.ok { r with recordsType := if magic < 2 then legacyRecords else defaultRecords }, rd')

/-- `Records.decode`, parametrised by the two container decoders
(`MessageSet.Decode` and `RecordBatch.decode`, whose sources are outside the
modelled core); each is an arbitrary state transformer on the decoder. -/
def Records.decode (msgSetDecode recordBatchDecode : RealDecoder → Except KError Unit × RealDecoder)
    (r : Records) (rd : RealDecoder) : Except KError Records × RealDecoder :=
  match (if r.recordsType = unknownRecords then r.setTypeFromMagic rd else (.ok r, rd)) with
  | (.error e, rd') => (.error e, rd')
  | (.ok r', rd') =>
    if r'.recordsType = legacyRecords then
      match msgSetDecode rd' with
      | (.error e, rd'') => (.error e, rd'')
      | (.ok _, rd'') => (.ok { r' with MsgSet := some () }, rd'')
    else if r'.recordsType = defaultRecords then
      match recordBatchDecode rd' with
      | (.error e, rd'') => (.error e, rd'')
      | (.ok _, rd'') => (.ok { r' with RecordBatch := some () }, rd'')
    else
      (.error (.packetDecoding "unknown records type"), rd')

/-- **C6.** Decoding a fresh records blob peeks the byte at offset 16 from
the current cursor without advancing it; magic `< 2` dispatches to the legacy
MessageSet decoder and magic `≥ 2` to the default RecordBatch decoder, each
applied at the *unchanged* cursor; and with fewer than 17 bytes remaining the
decode fails with `InsufficientData`, leaving the state untouched. -/
theorem records_decode_magic_dispatch
    (m b : RealDecoder → Except KError Unit × RealDecoder) (rd : RealDecoder) :
    (rd.remaining < 17 →
       Records.decode m b {} rd = (.error .insufficientData, rd)) ∧
    (17 ≤ rd.remaining → toSigned 8 (rd.raw.getD (rd.off + 16) 0 % 256) < 2 →
       Records.decode m b {} rd =
         (match m rd with
          | (.error e, rd') => (.error e, rd')
          | (.ok _, rd') =>
            (.ok { recordsType := legacyRecords, MsgSet := some (), RecordBatch := none }, rd'))) ∧
    (17 ≤ rd.remaining → 2 ≤ toSigned 8 (rd.raw.getD (rd.off + 16) 0 % 256) →
       Records.decode m b {} rd =
         (match b rd with
          | (.error e, rd') => (.error e, rd')
          | (.ok _, rd') =>
            (.ok { recordsType := defaultRecords, MsgSet := none, RecordBatch := some () }, rd'))) := by
  have h16 : ((16 : Int)).toNat = 16 := rfl
  refine ⟨fun hlt => ?_, fun hge hmag => ?_, fun hge hmag => ?_⟩
  · unfold Records.decode Records.setTypeFromMagic magicValue RealDecoder.peekInt8
    rw [if_pos rfl, if_pos (by simp [magicOffset]; omega)]
  · unfold Records.decode Records.setTypeFromMagic magicValue RealDecoder.peekInt8
    rw [if_pos rfl, if_neg (by simp [magicOffset]; omega)]
    simp only [magicOffset, h16, legacyRecords, defaultRecords, unknownRecords]
    simp only [if_pos hmag]
    simp only [if_true]
  · unfold Records.decode Records.setTypeFromMagic magicValue RealDecoder.peekInt8
    rw [if_pos rfl, if_neg (by simp [magicOffset]; omega)]
    simp only [magicOffset, h16, legacyRecords, defaultRecords, unknownRecords]
    have hcond : ¬ (toSigned 8 (rd.raw.getD (rd.off + 16) 0 % 256) < 2) := by omega
    simp only [if_neg hcond]
    simp only [if_true]
    rw [if_neg (by decide : ¬ (2 = 1))]

/-- Witness for `records_decode_magic_dispatch`: a 17-byte blob whose magic
byte is 2 dispatches to the RecordBatch decoder at the unchanged cursor. -/
theorem records_decode_magic_dispatch_witness :
    Records.decode (fun rd => (.ok (), rd)) (fun rd => (.ok (), rd)) {}
        ⟨[0, 0, 0, 0, 0, 0, 0, 0, 0, 0, 0, 0, 0, 0, 0, 0, 2], 0⟩
      = (.ok { recordsType := defaultRecords, MsgSet := none, RecordBatch := some () },
         ⟨[0, 0, 0, 0, 0, 0, 0, 0, 0, 0, 0, 0, 0, 0, 0, 0, 2], 0⟩) := by
  have h := (records_decode_magic_dispatch (fun rd => (.ok (), rd)) (fun rd => (.ok (), rd))
      ⟨[0, 0, 0, 0, 0, 0, 0, 0, 0, 0, 0, 0, 0, 0, 0, 0, 2], 0⟩).2.2 (by decide) (by decide)
  rw [h]

end Records

section RequestFramer

/-- `MaxRequestSize` of `kafka/request.go`: 100 MiB. -/
def MaxRequestSize : Int := 100 * 1024 * 1024

/-- The request bodies `allocateBody` can allocate: key 0 yields a
`ProduceRequest`, key 1 a `FetchRequest` carrying the version. -/
inductive BodyTag where
  | produceRequest
  | fetchRequest (version : Int)
  deriving DecidableEq, Repr

/-- `allocateBody` of `kafka/request.go`: every key other than 0 and 1 is
unsupported and yields `nil`. -/
def allocateBody (key version : Int) : Option BodyTag :=
  if key = 0 then some .produceRequest
  else if key = 1 then some (.fetchRequest version)
  else none

/-- `Request` of `kafka/request.go`.  `ClientID` is the raw bytes of the Go
string; `Body` is `none` exactly when the Go field stays `nil`. -/
structure Request where
  Key : Int := 0
  Version : Int := 0
  BodyLength : Int := 0
  CorrelationID : Int := 0
  ClientID : List Nat := []
  Body : Option BodyTag := none
  deriving DecidableEq, Repr

/-- The type of the versioned body decoders (`ProtocolBody.Decode(pd,
version)`).  `ProduceRequest.Decode` and `FetchRequest.Decode` are outside
the framing logic verified here, so the framer is parametrised by an
arbitrary state transformer for them. -/
def BodyDecode : Type :=
  BodyTag → Int → RealDecoder → Except KError Unit × RealDecoder

/-- `Request.Decode` of `kafka/request.go`: read key (2 bytes), version (2),
correlation id (4), client id (2 + its length); for an unsupported key,
discard `BodyLength - 10 - len(ClientID)` bytes and return with `Body = nil`
and no error; otherwise run the allocated body's decoder. -/
def Request.Decode (bd : BodyDecode) (r : Request) (rd : RealDecoder) :
    Except KError Request × RealDecoder :=
  match rd.getInt16 with
  | (.error e, rd) => (.error e, rd)
  | (.ok key, rd) =>
  match rd.getInt16 with
  | (.error e, rd) => (.error e, rd)
  | (.ok version, rd) =>
  match rd.getInt32 with
  | (.error e, rd) => (.error e, rd)
  | (.ok correlationID, rd) =>
  match rd.getString with
  | (.error e, rd) => (.error e, rd)
  | (.ok clientID, rd) =>
  let r := { r with Key := key, Version := version,
                    CorrelationID := correlationID, ClientID := clientID }
  match allocateBody r.Key r.Version with
  | none =>
    (.ok r, rd.discard (r.BodyLength - 10 - (r.ClientID.length : Int)))
  | some body =>
    match bd body r.Version rd with
    | (.error e, rd) => (.error e, rd)
    | (.ok _, rd) => (.ok { r with Body := some body }, rd)

/-- Top-level `Decode(buf, in)` of `kafka/decoder.go`: run the decoder over a
fresh `RealDecoder` on `buf` and require that it consumed the whole buffer.
(Go's `buf == nil` early return has no counterpart on `List` and is
unreachable here: `DecodeRequest` always passes a freshly allocated
buffer.) -/
def Decode (bd : BodyDecode) (buf : List Nat) (r : Request) : Except KError Request :=
  match Request.Decode bd r { raw := buf, off := 0 } with
  | (.error e, _) => .error e
  | (.ok r', helper) =>
    if helper.off ≠ buf.length then
      let e := helper.off
      let g := buf.length
      .error (.packetDecoding s!"invalid length, expected: {e}, got: {g}")
    else
      .ok r'

/-- `io.ReadFull(r, make([]byte, n))` over a byte stream modelled as the list
of bytes not yet read: returns the bytes read and the rest of the stream;
`io.EOF` when nothing is available, `io.ErrUnexpectedEOF` on a short read. -/
def readFull (n : Nat) (s : List Nat) : Except KError (List Nat) × List Nat :=
  if n ≤ s.length then (.ok (s.take n), s.drop n)
  else if s.isEmpty then (.error .eof, s)
  else (.error .unexpectedEOF, [])

/-- `DecodeRequest(r)` of `kafka/request.go`.  The result is
`(request-or-error, bytesRead, rest of the stream)`. -/
def DecodeRequest (bd : BodyDecode) (s : List Nat) :
    Except KError Request × Nat × List Nat :=
  match readFull 4 s with
  | (.error e, s) => (.error e, 0, s)
  | (.ok lengthBytes, s) =>
    let bytesRead := lengthBytes.length
    let length : Int := toSigned 32 (beList lengthBytes)
    if length ≤ 4 ∨ length > MaxRequestSize then
      (.error (.packetDecoding s!"message of length {length} too large or too small"),
       bytesRead, s)
    else
      match readFull length.toNat s with
      | (.error e, s) => (.error e, bytesRead, s)
      | (.ok encodedReq, s) =>
        let bytesRead := bytesRead + encodedReq.length
        match Decode bd encodedReq { BodyLength := length } with
        | .error e => (.error e, bytesRead, s)
        | .ok req => (.ok req, bytesRead, s)

end RequestFramer

section FramerTheorems

/-- **C2.** For every well-formed request frame with declared 4-byte
big-endian length `L` (`4 < L ≤ MaxRequestSize`, `L` frame bytes available),
`DecodeRequest` advances the underlying reader by exactly `L + 4` bytes and
returns that count as `bytesRead`, for every body decoder (supported and
unknown keys alike, and regardless of whether the in-buffer decode
succeeds): after one decode the stream is aligned at the next frame. -/
theorem decodeRequest_framing_invariant (bd : BodyDecode) (s : List Nat) (L : Int)
    (hL : L = toSigned 32 (beList (s.take 4)))
    (h1 : 4 < L) (h2 : L ≤ MaxRequestSize) (h3 : L.toNat + 4 ≤ s.length) :
    (DecodeRequest bd s).2.1 = L.toNat + 4 ∧
    (DecodeRequest bd s).2.2 = s.drop (4 + L.toNat) := by
  have h4 : 4 ≤ s.length := by omega
  have htake4 : (s.take 4).length = 4 := by
    simp [List.length_take]; omega
  have hdrop : L.toNat ≤ (s.drop 4).length := by
    simp [List.length_drop]; omega
  have htakeL : ((s.drop 4).take L.toNat).length = L.toNat := by
    simp [List.length_take, List.length_drop]; omega
  have hdd : (s.drop 4).drop L.toNat = s.drop (4 + L.toNat) := by
    rw [List.drop_drop]
  unfold DecodeRequest readFull
  rw [if_pos h4]
  simp only [← hL]
  rw [if_neg (by omega)]
  rw [if_pos hdrop]
  simp only [htake4, htakeL, hdd]
  cases Decode bd ((s.drop 4).take L.toNat) { BodyLength := L } <;>
    exact ⟨by simp [Nat.add_comm], rfl⟩

open RealDecoder in
theorem requestDecode_unknown (bd : BodyDecode) (body : List Nat)
    (h10 : 10 ≤ body.length)
    (hkey0 : toSigned 16 (beList (body.take 2)) ≠ 0)
    (hkey1 : toSigned 16 (beList (body.take 2)) ≠ 1)
    (hsl : toSigned 16 (beList ((body.drop 8).take 2)) = -1 ∨
           (0 ≤ toSigned 16 (beList ((body.drop 8).take 2)) ∧
            toSigned 16 (beList ((body.drop 8).take 2)) ≤ (body.length : Int) - 10)) :
    ∃ req, Request.Decode bd { BodyLength := (body.length : Int) } ⟨body, 0⟩
        = (.ok req, ⟨body, body.length⟩) ∧ req.Body = none := by
  have hr0 : (2 : Int) ≤ RealDecoder.remaining ⟨body, 0⟩ := by
    simp [RealDecoder.remaining]; omega
  have hr2 : (2 : Int) ≤ RealDecoder.remaining ⟨body, 2⟩ := by
    simp [RealDecoder.remaining]; omega
  have hr4 : (4 : Int) ≤ RealDecoder.remaining ⟨body, 4⟩ := by
    simp [RealDecoder.remaining]; omega
  have hr8 : (2 : Int) ≤ RealDecoder.remaining ⟨body, 8⟩ := by
    simp [RealDecoder.remaining]; omega
  unfold Request.Decode
  rw [getInt16_ok ⟨body, 0⟩ hr0]
  simp only [Nat.zero_add]
  rw [getInt16_ok ⟨body, 2⟩ hr2]
  simp only []
  rw [getInt32_ok ⟨body, 4⟩ hr4]
  simp only []
  rcases hsl with hm | ⟨hge, hle⟩
  · rw [getString_eq_null ⟨body, 8⟩ hr8 hm]
    simp only []
    have hbb0 : ({ raw := body, off := 0 } : RealDecoder).beBytes 2 = beList (body.take 2) := by
      simp [RealDecoder.beBytes]
    rw [hbb0]
    unfold allocateBody
    rw [if_neg hkey0, if_neg hkey1]
    have hdis : ({ raw := body, off := 8 + 2 } : RealDecoder).discard
        ((body.length : Int) - 10 - (([] : List Nat)).length) = (⟨body, body.length⟩ : RealDecoder) := by
      simp only [RealDecoder.discard, RealDecoder.mk.injEq, List.length_nil, true_and]
      omega
    rw [hdis]
    exact ⟨_, rfl, rfl⟩
  · rw [getString_eq_take ⟨body, 8⟩ hr8 hge
        (by simp only [RealDecoder.beBytes, RealDecoder.remaining]; push_cast; omega)]
    simp only []
    have hbb0 : ({ raw := body, off := 0 } : RealDecoder).beBytes 2 = beList (body.take 2) := by
      simp [RealDecoder.beBytes]
    have hbb8 : ({ raw := body, off := 8 } : RealDecoder).beBytes 2
        = beList ((body.drop 8).take 2) := by
      simp [RealDecoder.beBytes]
    rw [hbb0, hbb8]
    unfold allocateBody
    rw [if_neg hkey0, if_neg hkey1]
    set n : Int := toSigned 16 (beList ((body.drop 8).take 2)) with hn
    have hdis : ({ raw := body, off := 8 + 2 + n.toNat } : RealDecoder).discard ((body.length : Int) - 10 - ((List.take n.toNat (List.drop (8 + 2) body)).length)) = (⟨body, body.length⟩ : RealDecoder) := by
      simp only [RealDecoder.discard, RealDecoder.mk.injEq, List.length_take, List.length_drop, true_and]
      omega
    rw [hdis]
    exact ⟨_, rfl, rfl⟩

/-- **C1.** For every frame whose prelude is well-formed (declared length
within bounds, any correlation id and client id, including the null client
id `-1`) and whose request key is neither 0 (produce) nor 1 (fetch),
`DecodeRequest` does not return an error: the body is skipped by discarding
`BodyLength - 10 - len(clientID)` bytes, the yielded request has `Body =
none` (so the stream driver's body match emits no relation observation for
the frame), and the stream is left aligned at the next frame. -/
theorem decodeRequest_unknown_key (bd : BodyDecode) (enc4 body future : List Nat)
    (he4 : enc4.length = 4)
    (hval : beList enc4 = body.length)
    (h10 : 10 ≤ body.length)
    (hmax : (body.length : Int) ≤ MaxRequestSize)
    (hkey0 : toSigned 16 (beList (body.take 2)) ≠ 0)
    (hkey1 : toSigned 16 (beList (body.take 2)) ≠ 1)
    (hsl : toSigned 16 (beList ((body.drop 8).take 2)) = -1 ∨
           (0 ≤ toSigned 16 (beList ((body.drop 8).take 2)) ∧
            toSigned 16 (beList ((body.drop 8).take 2)) ≤ (body.length : Int) - 10)) :
    ∃ req, DecodeRequest bd (enc4 ++ (body ++ future))
        = (.ok req, 4 + body.length, future) ∧ req.Body = none := by
  obtain ⟨req, hreq, hbody⟩ := requestDecode_unknown bd body h10 hkey0 hkey1 hsl
  have hmax' : body.length ≤ 104857600 := by
    have : (body.length : Int) ≤ 104857600 := by
      simpa [MaxRequestSize] using hmax
    exact_mod_cast this
  have hL : toSigned 32 (beList enc4) = (body.length : Int) := by
    unfold toSigned
    rw [if_pos]
    · rw [hval]
    · rw [hval]
      have h31 : (2 : Nat) ^ (32 - 1) = 2147483648 := by norm_num
      rw [h31]
      omega
  have hlen : 4 ≤ (enc4 ++ (body ++ future)).length := by
    simp [List.length_append, he4]
  have htake : (enc4 ++ (body ++ future)).take 4 = enc4 := List.take_left' he4
  have hdrop : (enc4 ++ (body ++ future)).drop 4 = body ++ future := List.drop_left' he4
  have htoNat : ((body.length : Int)).toNat = body.length := by omega
  have htakeB : (body ++ future).take body.length = body := List.take_left' rfl
  have hdropB : (body ++ future).drop body.length = future := List.drop_left' rfl
  have hcond : ¬ ((body.length : Int) ≤ 4 ∨ MaxRequestSize < (body.length : Int)) := by
    push_neg
    constructor
    · exact_mod_cast h10.trans_lt' (by norm_num)
    · exact hmax
  unfold DecodeRequest readFull
  rw [if_pos hlen]
  simp only [htake, hdrop, hL]
  rw [if_neg hcond]
  simp only [htoNat]
  rw [if_pos (by simp [List.length_append])]
  simp only [htakeB, hdropB]
  unfold Decode
  rw [hreq]
  refine ⟨req, ?_, hbody⟩
  simp [he4]



/-- Witness for `decodeRequest_unknown_key`: a Metadata frame (key 3) with
declared length 14, client id `"ab"` and a 2-byte opaque body, followed by
two further stream bytes, decodes without error to a body-less request. -/
theorem decodeRequest_unknown_key_witness :
    ∃ req, DecodeRequest (fun _ _ rd => (.ok (), rd))
        ([0, 0, 0, 14] ++ ([0, 3, 0, 1, 0, 0, 0, 5, 0, 2, 97, 98, 99, 100] ++ [7, 7]))
      = (.ok req, 18, [7, 7]) ∧ req.Body = none := by
  have h := decodeRequest_unknown_key (fun _ _ rd => (.ok (), rd))
    [0, 0, 0, 14] [0, 3, 0, 1, 0, 0, 0, 5, 0, 2, 97, 98, 99, 100] [7, 7]
    (by decide) (by decide) (by decide) (by decide) (by decide) (by decide)
    (Or.inr (by decide))
  simpa using h

/-- **C3.** With at least the 4 length bytes available, `DecodeRequest`
rejects the frame with the `PacketDecodingError` "message of length L too
large or too small" — consuming exactly the 4 length bytes and no body
bytes — if and only if the declared length `L` violates
`4 < L ≤ MaxRequestSize`. -/
theorem decodeRequest_size_bounds (bd : BodyDecode) (s : List Nat) (L : Int)
    (hL : L = toSigned 32 (beList (s.take 4))) (h4 : 4 ≤ s.length) :
    DecodeRequest bd s
        = (.error (.packetDecoding s!"message of length {L} too large or too small"),
           4, s.drop 4)
      ↔ (L ≤ 4 ∨ MaxRequestSize < L) := by
  have htake4 : (s.take 4).length = 4 := by
    simp [List.length_take]; omega
  constructor
  · intro hEq
    by_contra hnot
    push_neg at hnot
    unfold DecodeRequest readFull at hEq
    rw [if_pos h4] at hEq
    simp only [← hL, htake4] at hEq
    rw [if_neg (by push_neg; exact hnot)] at hEq
    by_cases hr : L.toNat ≤ (s.drop 4).length
    · rw [if_pos hr] at hEq
      simp only [List.length_take] at hEq
      cases hD : Decode bd ((s.drop 4).take L.toNat) { BodyLength := L } with
      | error e =>
        rw [hD] at hEq
        simp only [Prod.mk.injEq] at hEq
        have hlen4 : min L.toNat (s.drop 4).length = 0 := by omega
        omega
      | ok req =>
        rw [hD] at hEq
        simp only [Prod.mk.injEq] at hEq
        rcases hEq with ⟨hfst, _, _⟩
        exact absurd hfst (by simp)
    · rw [if_neg hr] at hEq
      by_cases he : (s.drop 4).isEmpty
      · rw [if_pos he] at hEq
        simp only [Prod.mk.injEq] at hEq
        rcases hEq with ⟨hfst, _, _⟩
        exact absurd hfst (by simp)
      · rw [if_neg he] at hEq
        simp only [Prod.mk.injEq] at hEq
        rcases hEq with ⟨hfst, _, _⟩
        exact absurd hfst (by simp)
  · intro hviol
    unfold DecodeRequest readFull
    rw [if_pos h4]
    simp only [← hL, htake4]
    rw [if_pos hviol]


/-- Witness for `decodeRequest_size_bounds`: a declared length of 2 is
rejected after exactly the 4 length bytes. -/
theorem decodeRequest_size_bounds_witness :
    DecodeRequest (fun _ _ rd => (.ok (), rd)) [0, 0, 0, 2, 9, 9, 9]
      = (.error (.packetDecoding "message of length 2 too large or too small"),
         4, [9, 9, 9]) := by
  have h := (decodeRequest_size_bounds (fun _ _ rd => (.ok (), rd)) [0, 0, 0, 2, 9, 9, 9] 2
    (by decide) (by decide)).mpr (Or.inl (by decide))
  simpa using h

/-- Witness for `decodeRequest_framing_invariant`: the same key-3 frame of
length 14 advances the stream by exactly 18 bytes, which is also the
returned byte count. -/
theorem decodeRequest_framing_invariant_witness :
    (DecodeRequest (fun _ _ rd => (.ok (), rd))
        [0, 0, 0, 14, 0, 3, 0, 1, 0, 0, 0, 5, 0, 2, 97, 98, 99, 100, 7, 7]).2.1 = 18 ∧
    (DecodeRequest (fun _ _ rd => (.ok (), rd))
        [0, 0, 0, 14, 0, 3, 0, 1, 0, 0, 0, 5, 0, 2, 97, 98, 99, 100, 7, 7]).2.2 = [7, 7] := by
  have h := decodeRequest_framing_invariant (fun _ _ rd => (.ok (), rd))
    [0, 0, 0, 14, 0, 3, 0, 1, 0, 0, 0, 5, 0, 2, 97, 98, 99, 100, 7, 7] 14
    (by decide) (by decide) (by decide) (by decide)
  simpa using h

end FramerTheorems

section Registry

/-- A Go string (a byte slice). -/
abbrev GoStr := List Nat

/-- `strings.Join(elems, sep)`: the elements concatenated with `sep`
between consecutive elements. -/
def goJoin (sep : GoStr) : List GoStr → GoStr
  | [] => []
  | [x] => x
  | x :: y :: xs => x ++ sep ++ goJoin sep (y :: xs)

/-- `genLabelKey` of `metrics/storage.go`: the labels joined with `"_"`
(byte 95). -/
def genLabelKey (labels : List GoStr) : GoStr :=
  goJoin [95] labels

/-- `relation` of `metrics/storage.go`.  The one-shot `*time.Timer` is
modelled by the duration it was last armed with (`none` = no timer yet);
the eviction channel carries no registry state and is omitted. -/
structure Relation where
  expireTime : Int
  labels : List GoStr
  timer : Option Int
  deriving DecidableEq, Repr

/-- `relation.refresh`: `time.NewTimer(c.expireTime)` when no timer exists
yet, `c.timer.Reset(c.expireTime)` otherwise — both arm the timer with the
full `c.expireTime`. -/
def Relation.refresh (c : Relation) : Relation :=
  match c.timer with
  | none => { c with timer := some c.expireTime }
  | some _ => { c with timer := some c.expireTime }

/-- `newRelation` of `metrics/storage.go` composed with the first action of
the `go rel.run()` goroutine it spawns, which is `c.refresh()` — the point
where the one-shot timer is created. -/
def newRelation (expireTime : Int) (labels : List GoStr) : Relation :=
  ({ expireTime := expireTime, labels := labels, timer := none } : Relation).refresh

/-- Go map lookup on an association-list model of a map. -/
def mapGet {κ α : Type} [DecidableEq κ] (k : κ) : List (κ × α) → Option α
  | [] => none
  | (k', v) :: rest => if k' = k then some v else mapGet k rest

/-- Go map assignment on an association-list model of a map. -/
def mapSet {κ α : Type} [DecidableEq κ] (k : κ) (v : α) : List (κ × α) → List (κ × α)
  | [] => [(k, v)]
  | (k', v') :: rest => if k' = k then (k, v) :: rest else (k', v') :: mapSet k v rest

/-- `metric` of `metrics/storage.go`: the labelled prometheus gauge series
(`gauge`, keyed by label tuple) plus the expiring `relations` map keyed by
`genLabelKey`. -/
structure Metric where
  expireTime : Int
  gauge : List (List GoStr × Int)
  relations : List (GoStr × Relation)
  deriving DecidableEq, Repr

/-- `newMetric`. -/
def newMetric (expireTime : Int) : Metric :=
  { expireTime := expireTime, gauge := [], relations := [] }

/-- `metric.update`: refresh the existing relation for the label key, or
create a new one armed with the metric's expire time. -/
def Metric.update (m : Metric) (labels : List GoStr) : Metric :=
  match mapGet (genLabelKey labels) m.relations with
  | some r => { m with relations := mapSet (genLabelKey labels) r.refresh m.relations }
  | none =>
    { m with relations :=
        mapSet (genLabelKey labels) (newRelation m.expireTime labels) m.relations }

/-- `metric.set`: `promMetric.WithLabelValues(labels...).Set(1)` then
`update`. -/
def Metric.set (m : Metric) (labels : List GoStr) : Metric :=
  ({ m with gauge := mapSet labels 1 m.gauge } : Metric).update labels

/-- `metric.inc`: `promMetric.WithLabelValues(labels...).Inc()` (a fresh
series starts at 0) then `update`. -/
def Metric.inc (m : Metric) (labels : List GoStr) : Metric :=
  ({ m with gauge := mapSet labels ((mapGet labels m.gauge).getD 0 + 1) m.gauge }
     : Metric).update labels

/-- `hourExpireTime = time.Hour` (in nanoseconds, Go's `time.Duration`). -/
def hourExpireTime : Int := 3600000000000

/-- The default of the `-metrics.expire-time` flag: 5 minutes, in
nanoseconds. -/
def defaultExpireTime : Int := 300000000000

/-- `Storage` of `metrics/storage.go` (the variant carrying all three
expiring metrics). -/
structure Storage where
  producerTopicRelationInfo : Metric
  consumerTopicRelationInfo : Metric
  activeConnectionsTotal : Metric
  deriving DecidableEq, Repr

/-- `NewStorage`: producer and consumer relation metrics use the configured
`expireTime`; the active-connections metric is created with
`hourExpireTime`. -/
def NewStorage (expireTime : Int) : Storage :=
  { producerTopicRelationInfo := newMetric expireTime,
    consumerTopicRelationInfo := newMetric expireTime,
    activeConnectionsTotal := newMetric hourExpireTime }

/-- `Storage.AddProducerTopicRelationInfo`. -/
def Storage.AddProducerTopicRelationInfo (s : Storage) (producer topic : GoStr) : Storage :=
  { s with producerTopicRelationInfo := s.producerTopicRelationInfo.set [producer, topic] }

/-- `Storage.AddConsumerTopicRelationInfo`. -/
def Storage.AddConsumerTopicRelationInfo (s : Storage) (consumer topic : GoStr) : Storage :=
  { s with consumerTopicRelationInfo := s.consumerTopicRelationInfo.set [consumer, topic] }

/-- `Storage.AddActiveConnectionsTotal`. -/
def Storage.AddActiveConnectionsTotal (s : Storage) (clientIP : GoStr) : Storage :=
  { s with activeConnectionsTotal := s.activeConnectionsTotal.inc [clientIP] }

end Registry

section RegistryTheorems

theorem mapGet_mapSet_self {κ α : Type} [DecidableEq κ] (k : κ) (v : α)
    (l : List (κ × α)) : mapGet k (mapSet k v l) = some v := by
  induction l with
  | nil => simp [mapGet, mapSet]
  | cons hd tl ih =>
    obtain ⟨k', v'⟩ := hd
    by_cases h : k' = k
    · simp [mapGet, mapSet, h]
    · simp [mapGet, mapSet, h, ih]

theorem mapSet_mapSet_self {κ α : Type} [DecidableEq κ] (k : κ) (v w : α)
    (l : List (κ × α)) : mapSet k v (mapSet k w l) = mapSet k v l := by
  induction l with
  | nil => simp [mapSet]
  | cons hd tl ih =>
    obtain ⟨k', v'⟩ := hd
    by_cases h : k' = k
    · simp [mapSet, h]
    · simp [mapSet, h, ih]

theorem refresh_timer (c : Relation) : c.refresh.timer = some c.expireTime := by
  cases h : c.timer <;> simp [Relation.refresh, h]

theorem refresh_idem (c : Relation) : c.refresh.refresh = c.refresh := by
  cases h : c.timer <;> simp [Relation.refresh, h]

theorem newRelation_refresh (e : Int) (labels : List GoStr) :
    (newRelation e labels).refresh = newRelation e labels := by
  simp [newRelation, Relation.refresh]

/-- Counterexample to **C4** as stated: with the default configured
`ExpireTime` of 5 minutes, the relation entry that
`AddActiveConnectionsTotal` creates in the `active_connections_total` metric
carries a timer armed with the fixed one-hour `hourExpireTime`, not with the
configured `ExpireTime`. -/
theorem relation_timer_counterexample :
    ¬ (∀ r ∈ (((NewStorage defaultExpireTime).AddActiveConnectionsTotal
          [49]).activeConnectionsTotal.relations.map Prod.snd),
        r.timer = some defaultExpireTime) := by
  decide

/-- **C4 (amended).** In `NewStorage expireTime` the producer and consumer
relation metrics carry the configured `expireTime` while the
active-connections metric carries the fixed `hourExpireTime`; and for every
metric, a relation entry's one-shot timer is armed with that metric's full
expiry duration when the entry is created, and every further observation of
the same label tuple re-arms the existing entry's timer with its full
duration. -/
theorem relation_timer_full_expiry (expireTime : Int) (labels : List GoStr) (m : Metric) :
    (NewStorage expireTime).producerTopicRelationInfo.expireTime = expireTime ∧
    (NewStorage expireTime).consumerTopicRelationInfo.expireTime = expireTime ∧
    (NewStorage expireTime).activeConnectionsTotal.expireTime = hourExpireTime ∧
    (newRelation m.expireTime labels).timer = some m.expireTime ∧
    (mapGet (genLabelKey labels) m.relations = none →
       mapGet (genLabelKey labels) (m.update labels).relations
         = some (newRelation m.expireTime labels)) ∧
    (∀ r, mapGet (genLabelKey labels) m.relations = some r →
       mapGet (genLabelKey labels) (m.update labels).relations = some r.refresh ∧
       r.refresh.timer = some r.expireTime) := by
  refine ⟨rfl, rfl, rfl, ?_, fun hnone => ?_, fun r hsome => ?_⟩
  · simpa [newRelation] using refresh_timer _
  · unfold Metric.update
    rw [hnone]
    exact mapGet_mapSet_self _ _ _
  · unfold Metric.update
    rw [hsome]
    exact ⟨mapGet_mapSet_self _ _ _, refresh_timer r⟩

/-- Witness for `relation_timer_full_expiry`: on a fresh metric with expiry
7, an update creates the entry with its timer armed at 7. -/
theorem relation_timer_full_expiry_witness :
    mapGet (genLabelKey [[49]]) ((newMetric 7).update [[49]]).relations
      = some (newRelation (newMetric 7).expireTime [[49]]) := by
  exact (relation_timer_full_expiry 7 [[49]] (newMetric 7)).2.2.2.2.1 (by decide)

/-- **C5.** `AddProducerTopicRelationInfo` is idempotent on the registry
state within the expiry window: the exposed gauge for `(ip, topic)` is 1
after the first call, and a repeated call leaves the whole producer metric —
gauge and relations map — unchanged (the existing entry is refreshed in
place; no second entry is created). -/
theorem addProducer_idempotent (st : Storage) (ip topic : GoStr) :
    mapGet [ip, topic]
        (st.AddProducerTopicRelationInfo ip topic).producerTopicRelationInfo.gauge
      = some 1 ∧
    ((st.AddProducerTopicRelationInfo ip topic).AddProducerTopicRelationInfo
        ip topic).producerTopicRelationInfo
      = (st.AddProducerTopicRelationInfo ip topic).producerTopicRelationInfo := by
  constructor
  · unfold Storage.AddProducerTopicRelationInfo Metric.set Metric.update
    cases hg : mapGet (genLabelKey [ip, topic])
        (st.producerTopicRelationInfo.relations) <;>
      simp [mapGet_mapSet_self]
  · unfold Storage.AddProducerTopicRelationInfo Metric.set Metric.update
    cases hg : mapGet (genLabelKey [ip, topic])
        (st.producerTopicRelationInfo.relations) with
    | none =>
      simp only [hg, mapGet_mapSet_self, mapSet_mapSet_self, newRelation_refresh]
    | some r =>
      simp only [hg, mapGet_mapSet_self, mapSet_mapSet_self, refresh_idem]

end RegistryTheorems

section LabelKeyTheorems

theorem append_sep_inj (sep : Nat) (a : List Nat) :
    ∀ (b u v : List Nat), sep ∉ a → sep ∉ b →
      a ++ sep :: u = b ++ sep :: v → a = b ∧ u = v := by
  induction a with
  | nil =>
    intro b u v ha hb h
    cases b with
    | nil => simpa using h
    | cons d b' =>
      rw [List.nil_append, List.cons_append] at h
      injection h with h1 h2
      exact absurd (by rw [h1]; exact List.mem_cons_self _ _) hb
  | cons c a' ih =>
    intro b u v ha hb h
    cases b with
    | nil =>
      rw [List.cons_append, List.nil_append] at h
      injection h with h1 h2
      exact absurd (by rw [← h1]; exact List.mem_cons_self _ _) ha
    | cons d b' =>
      rw [List.cons_append, List.cons_append] at h
      injection h with h1 h2
      have hrec := ih b' u v
        (fun hm => ha (List.mem_cons_of_mem _ hm))
        (fun hm => hb (List.mem_cons_of_mem _ hm)) h2
      exact ⟨by rw [h1, hrec.1], hrec.2⟩

/-- Counterexample to **C8** as stated: `genLabelKey` is not injective on
label tuples — the single label `"a_b"` and the pair `("a", "b")` produce
the same underscore-joined key. -/
theorem genLabelKey_not_injective :
    ¬ (∀ xs ys : List GoStr, genLabelKey xs = genLabelKey ys → xs = ys) := by
  intro h
  have := h [[97, 95, 98]] [[97], [98]] (by decide)
  simp at this

/-- **C8 (amended).** `genLabelKey` is deterministic (it is a function), and
it is injective on label tuples of equal arity none of whose labels contains
the separator byte `'_'` (95) — the regime of the registry's fixed-arity
metrics with IP and topic labels free of collisions. -/
theorem genLabelKey_inj_of_no_sep :
    ∀ (xs ys : List GoStr), (∀ l ∈ xs, 95 ∉ l) → (∀ l ∈ ys, 95 ∉ l) →
      xs.length = ys.length → genLabelKey xs = genLabelKey ys → xs = ys := by
  intro xs
  induction xs with
  | nil =>
    intro ys _ _ hlen _
    cases ys with
    | nil => rfl
    | cons y ys' => simp at hlen
  | cons x xs' ih =>
    intro ys hx hy hlen h
    cases ys with
    | nil => simp at hlen
    | cons y ys' =>
      cases xs' with
      | nil =>
        cases ys' with
        | nil => simpa [genLabelKey, goJoin] using h
        | cons y2 ys2 => simp at hlen
      | cons x2 xs2 =>
        cases ys' with
        | nil => simp at hlen
        | cons y2 ys2 =>
          have h' : x ++ 95 :: goJoin [95] (x2 :: xs2)
              = y ++ 95 :: goJoin [95] (y2 :: ys2) := by
            simpa [genLabelKey, goJoin] using h
          obtain ⟨hxy, hrest⟩ := append_sep_inj 95 x y _ _
            (hx x (by simp)) (hy y (by simp)) h'
          have hrec := ih (y2 :: ys2)
            (fun l hl => hx l (List.mem_cons_of_mem _ hl))
            (fun l hl => hy l (List.mem_cons_of_mem _ hl))
            (by simpa using hlen)
            (by simpa [genLabelKey] using hrest)
          rw [hxy, hrec]

/-- Witness for `genLabelKey_inj_of_no_sep` on the underscore-free pair
`("a", "b")`. -/
theorem genLabelKey_inj_of_no_sep_witness :
    ([[97], [98]] : List GoStr) = [[97], [98]] :=
  genLabelKey_inj_of_no_sep [[97], [98]] [[97], [98]]
    (by decide) (by decide) (by decide) (by decide)

end LabelKeyTheorems

end KafkaSniffer
